import Mathlib

/-!
Verification of the claudecode-rule2hook conversion engine.

This file gives a shallow embedding, in Lean 4, of the rule-to-hook
conversion engine and its companion validators:

* the rule analyzers `_determine_event`, `_determine_tools`,
  `_extract_command` (rule2hook_mcp_server.py),
* the batch converter `convert_rules` (rule2hook_mcp_server_v2.py, which
  aggregates per-rule successes and failures; the analyzers it calls are
  the ones defined in rule2hook_mcp_server.py),
* the structural validator `validate_hooks` (rule2hook_mcp_server.py),
* the companion CLI validator `validate_hooks_file` (validate-hooks.py),
* the conflict detector `detect_conflicts` (rule2hook_mcp_server.py).

Strings are modelled as Lean `String` backed by `List Char` scanning
functions; all inputs of interest are ASCII, for which Python
`str.lower` agrees with `Char.toLower`.  Python functions that can raise
an unhandled exception on the modelled inputs are embedded as
`Option`-valued functions, `none` marking the raised exception.
-/

namespace Rule2Hook

/-! ## Character and string utilities -/

/-- The backtick character, written via its code point. -/
def backtickChar : Char := Char.ofNat 96

/-- The double-quote character, written via its code point. -/
def quoteChar : Char := Char.ofNat 34

/-- Python `str.lower` on the underlying characters (ASCII fragment). -/
def lowerChars (cs : List Char) : List Char := cs.map Char.toLower

/-- Prefix test: does the second list start with the first? -/
def isPrefixL : List Char → List Char → Bool
  | [], _ => true
  | _ :: _, [] => false
  | a :: as, b :: bs => a == b && isPrefixL as bs

/-- Substring test: does `needle` occur contiguously in the haystack?
Models the Python substring test `needle in hay`. -/
def containsL (needle : List Char) : List Char → Bool
  | [] => needle.isEmpty
  | c :: t => isPrefixL needle (c :: t) || containsL needle t

/-- Python `needle in hay` on strings. -/
def strContains (hay needle : String) : Bool := containsL needle.data hay.data

/-- Python `str.strip()` : drop whitespace from both ends. -/
def stripChars (cs : List Char) : List Char :=
  ((cs.dropWhile Char.isWhitespace).reverse.dropWhile Char.isWhitespace).reverse

/-- Python `str.strip()` on `String`. -/
def strip (s : String) : String := String.mk (stripChars s.data)

/-- Split a character list at every comma or semicolon, modelling
Python re.split on "[,;]". -/
def splitOnSepAux (cur : List Char) : List Char → List (List Char)
  | [] => [cur.reverse]
  | c :: rest =>
      if c == ',' || c == ';' then cur.reverse :: splitOnSepAux [] rest
      else splitOnSepAux (c :: cur) rest

/-- Python re.split on "[,;]" as a list of strings. -/
def splitRulesRaw (s : String) : List String :=
  (splitOnSepAux [] s.data).map String.mk

/-- Python `"|".join(parts)`. -/
def joinPipe : List String → String
  | [] => ""
  | [t] => t
  | t :: ts => String.mk (t.data ++ '|' :: (joinPipe ts).data)

/-! ## Event classification (`_determine_event`, rule2hook_mcp_server.py) -/

/-- The `HOOK_EVENTS` table: event name and its keyword set, in declared
order.  Descriptions are omitted (they are not used by any logic). -/
def HOOK_EVENTS : List (String × List String) :=
  [("PreToolUse", ["before", "check", "validate", "prevent", "scan", "verify"]),
   ("PostToolUse", ["after", "following", "once done", "when finished"]),
   ("Stop", ["finish", "complete", "end task", "done", "wrap up"]),
   ("Notification", ["notify", "alert", "inform", "message"])]

/-- Keywords of the secondary heuristic in `_determine_event`. -/
def editWords : List String := ["edit", "modify", "save", "write"]

/-- Function `_determine_event`: first event of `HOOK_EVENTS` with a keyword
occurring in the lower-cased rule; otherwise `PostToolUse` when an
edit-word occurs, else `Stop`. -/
def determine_event (rule : String) : String :=
  let rl := lowerChars rule.data
  match HOOK_EVENTS.find? (fun p => p.2.any (fun kw => containsL kw.data rl)) with
  | some p => p.1
  | none =>
      if editWords.any (fun w => containsL w.data rl) then "PostToolUse" else "Stop"

/-! ## Tool matching (`_determine_tools`, rule2hook_mcp_server.py) -/

/-- Keyword groups of `_determine_tools`, in source order. -/
def fileOpWords : List String := ["edit", "modify", "save", "file", "code"]

def commandOpWords : List String := ["command", "bash", "shell", "execute", "run"]

def searchOpWords : List String := ["search", "find", "grep"]

def webOpWords : List String := ["web", "fetch", "download"]

/-- The tool list accumulated by `_determine_tools` before deduplication,
as a function of the six keyword-group membership flags.  The check
`if "bash" not in tools` is transcribed literally: it compares the
lower-case string `"bash"` against the capitalized names accumulated so
far. -/
def toolsFromFlags (f1 f2 f3 f4 f5 f6 : Bool) : List String :=
  let tools : List String := []
  let tools := if f1 then tools ++ ["Edit", "MultiEdit", "Write"] else tools
  let tools := if f2 then
      (if tools.contains "bash" then tools else tools ++ ["Bash"]) else tools
  let tools := if f3 then tools ++ ["Grep", "Glob"] else tools
  let tools := if f4 then tools ++ ["Read"] else tools
  let tools := if f5 then tools ++ ["WebFetch", "WebSearch"] else tools
  if f6 then tools ++ ["TodoRead", "TodoWrite"] else tools

/-- Deduplication preserving first occurrence, as in the final loop of
`_determine_tools`. -/
def dedupKeepFirstAux (seen : List String) : List String → List String
  | [] => []
  | t :: ts =>
      if seen.contains t then dedupKeepFirstAux seen ts
      else t :: dedupKeepFirstAux (t :: seen) ts

/-- Entry point of the deduplication loop. -/
def dedupKeepFirst (ts : List String) : List String := dedupKeepFirstAux [] ts

/-- Function `_determine_tools`: accumulate the tool groups whose keywords occur in
the lower-cased rule, then deduplicate keeping first occurrences. -/
def determine_tools (rule : String) : List String :=
  let rl := lowerChars rule.data
  let has : List String → Bool := fun ws => ws.any (fun w => containsL w.data rl)
  dedupKeepFirst
    (toolsFromFlags (has fileOpWords) (has commandOpWords) (has searchOpWords)
      (containsL "read".data rl) (has webOpWords) (containsL "todo".data rl))

/-! ## Command extraction (`_extract_command`, rule2hook_mcp_server.py) -/

/-- Leftmost match of the regex pattern of one-or-more characters between
two occurrences of `delim`, returning the delimited content.  Models
`re.search` of the backtick and double-quote patterns. -/
def delimSearch (delim : Char) : List Char → Option (List Char)
  | [] => none
  | c :: rest =>
      if c == delim then
        let taken := rest.takeWhile (fun d => !(d == delim))
        match rest.drop taken.length with
        | d :: _ =>
            if d == delim then
              if taken.isEmpty then delimSearch delim rest else some taken
            else none
        | [] => none
  else delimSearch delim rest

/-- Python `\w` on the ASCII fragment. -/
def isWordChar (c : Char) : Bool := c.isAlphanum || c == '_'

/-- The verb alternatives of the verb-object fallback regex, in
alternation order. -/
def verbList : List String := ["run", "execute", "check", "validate", "format", "scan"]

/-- Try, at the current position, every verb alternative in order: the
verb must be a prefix, followed by one-or-more whitespace and a
non-empty maximal non-whitespace token, which is returned. -/
def tryVerbs : List String → List Char → Option (List Char)
  | [], _ => none
  | v :: vs, cs =>
      if isPrefixL v.data cs then
        let rest := cs.drop v.data.length
        let sp := rest.takeWhile Char.isWhitespace
        if sp.isEmpty then tryVerbs vs cs
        else
          let obj := (rest.drop sp.length).takeWhile (fun c => !c.isWhitespace)
          if obj.isEmpty then tryVerbs vs cs else some obj
      else tryVerbs vs cs

/-- Scan left to right for the leftmost position with a word boundary
before it where some verb alternative matches; the flag records whether
the previous character was a word character. -/
def verbSearchAux : Bool → List Char → Option (List Char)
  | _, [] => none
  | prevWord, c :: rest =>
      if prevWord then verbSearchAux (isWordChar c) rest
      else
        match tryVerbs verbList (c :: rest) with
        | some obj => some obj
        | none => verbSearchAux (isWordChar c) rest

/-- Models the Python regex search for a word-boundary verb followed by
whitespace and a token, returning the second capture group. -/
def verbSearch (cs : List Char) : Option (List Char) := verbSearchAux false cs

/-- The fixed phrase table and verb-object fallback of `_extract_command`,
applied to the lower-cased rule; reached only when neither the backtick
rule nor the qualifying-quote rule fired. -/
def phraseOrVerb (rl : List Char) : Option String :=
  if containsL "black".data rl && containsL "python".data rl then
    some "black . --quiet 2>/dev/null || true"
  else if containsL "prettier".data rl then
    some "prettier --write . 2>/dev/null || true"
  else if containsL "git status".data rl then
    some "git status"
  else if containsL "npm test".data rl then
    some "npm test 2>/dev/null || echo \x27Tests need attention\x27"
  else if containsL "npm run lint".data rl then
    some "npm run lint 2>/dev/null || true"
  else if containsL "todo".data rl && containsL "comment".data rl then
    some "grep -r \x27TODO\x27 . 2>/dev/null || echo \x27No TODOs found\x27"
  else if containsL "secret".data rl || containsL "credential".data rl then
    some "git secrets --scan 2>/dev/null || echo \x27No secrets found\x27"
  else
    match verbSearch rl with
    | some obj => some (String.mk (obj ++ " 2>/dev/null || true".data))
    | none => none

/-- Does a quoted content qualify as a command (contains a space, slash,
or hyphen)? -/
def quoteQualifies (cs : List Char) : Bool :=
  cs.any (fun c => c == ' ' || c == '/' || c == '-')

/-- Function `_extract_command`: backtick content first; then a qualifying
double-quoted substring; then the phrase table; then the verb-object
fallback; else `none`. -/
def extract_command (rule : String) : Option String :=
  let rl := lowerChars rule.data
  match delimSearch backtickChar rule.data with
  | some cs => some (String.mk cs)
  | none =>
      match delimSearch quoteChar rule.data with
      | some cs =>
          if quoteQualifies cs then some (String.mk cs) else phraseOrVerb rl
      | none => phraseOrVerb rl

/-! ## Batch conversion (`convert_rules`, rule2hook_mcp_server_v2.py)

The v2 server carries the status aggregation (success / partial / error)
and the failed-rule records; the per-rule analyzers it invokes are the
ones defined above (rule2hook_mcp_server.py).  The `message` and `json`
fields of the returned payload duplicate information already present in
the other fields and are omitted.  Exceptions that abort the whole call
(`ValidationError` from the `@require` preconditions or from
`bounded_string`) are modelled by `Except.error`. -/

/-- A hook entry `{"type": "command", "command": ...}`. -/
structure HookEntry where
  type_ : String
  command : String
deriving Repr, DecidableEq

/-- A hook group: optional tool matcher plus a list of hook entries. -/
structure HookGroup where
  matcher : Option String
  hooks : List HookEntry
deriving Repr, DecidableEq

/-- One successful conversion record. -/
structure Conversion where
  rule : String
  event : String
  tools : List String
  command : String
deriving Repr, DecidableEq

/-- The payload returned by `convert_rules` (presentation-only fields
omitted).  `hooks_config` is the insertion-ordered event map. -/
structure ConvResult where
  status : String
  hooks_config : List (String × List HookGroup)
  converted_rules : List Conversion
  failed_rules : List (String × String)
deriving Repr, DecidableEq

/-- Constant `MAX_RULE_LENGTH` from rule2hook_mcp_server_v2.py. -/
def MAX_RULE_LENGTH : Nat := 500

/-- Constant `MAX_COMMAND_LENGTH` from rule2hook_mcp_server_v2.py. -/
def MAX_COMMAND_LENGTH : Nat := 1000

/-- Append a group under an event key, creating the key at the end of the
insertion-ordered map when absent; models
`hooks_config["hooks"].setdefault(event, []).append(group)` shape of the
source. -/
def appendAt : List (String × List HookGroup) → String → HookGroup →
    List (String × List HookGroup)
  | [], ev, g => [(ev, [g])]
  | (k, gs) :: rest, ev, g =>
      if k == ev then (k, gs ++ [g]) :: rest else (k, gs) :: appendAt rest ev g

/-- Mutable loop state of the conversion loop. -/
structure ConvState where
  hooks_config : List (String × List HookGroup)
  converted : List Conversion
  failed : List (String × String)
deriving Repr, DecidableEq

/-- String rendering of the recorded RuleParsingError. -/
def parseErrorMsg (rule : String) : String :=
  "Failed to parse rule \x27" ++ rule ++ "\x27: Could not determine command from rule"

/-- Error recorded when `bounded_string` rejects an over-long command
(caught by the generic handler; message abbreviated). -/
def commandTooLongMsg : String :=
  "Unexpected error: Parameter \x27command\x27 exceeds maximum length of 1000"

/-- The body of the per-rule loop of `convert_rules` (v2): analyze the
rule; on a missing (falsy) command record a `RuleParsingError`; on an
over-long command record the wrapped unexpected error; otherwise build
the hook entry and group and extend the configuration and the
converted-rule list. -/
def processRule (st : ConvState) (rule : String) : ConvState :=
  let event := determine_event rule
  let tools := determine_tools rule
  match extract_command rule with
  | none => { st with failed := st.failed ++ [(rule, parseErrorMsg rule)] }
  | some c =>
      if c.data.isEmpty then
        { st with failed := st.failed ++ [(rule, parseErrorMsg rule)] }
      else if c.data.length > MAX_COMMAND_LENGTH then
        { st with failed := st.failed ++ [(rule, commandTooLongMsg)] }
      else
        let entry : HookEntry := { type_ := "command", command := c }
        let group : HookGroup :=
          if event != "Stop" && !tools.isEmpty then
            { matcher := some (joinPipe tools), hooks := [entry] }
          else
            { matcher := none, hooks := [entry] }
        { st with
            hooks_config := appendAt st.hooks_config event group,
            converted := st.converted ++ [⟨rule, event, tools, c⟩] }

/-- Final status aggregation of `convert_rules` (v2, lines 337-346):
error when nothing converted, partial when something converted and
something failed, success otherwise. -/
def finishConv (st : ConvState) : ConvResult :=
  { status :=
      if st.converted.isEmpty then "error"
      else if !st.failed.isEmpty then "partial"
      else "success",
    hooks_config := st.hooks_config,
    converted_rules := st.converted,
    failed_rules := st.failed }

/-- Function `convert_rules` (v2): preconditions from the `@require` decorator
(non-empty after strip, raw length below `MAX_RULE_LENGTH * 10`), the
`bounded_string` guards, the comma/semicolon split into trimmed
non-empty candidate rules, the per-rule loop and the status
aggregation. -/
def convert_rules (rules : String) : Except String ConvResult :=
  if (stripChars rules.data).isEmpty then
    .error "Precondition failed in convert_rules: Parameter \x27rules\x27 must not be empty"
  else if MAX_RULE_LENGTH * 10 ≤ rules.data.length then
    .error "Precondition failed in convert_rules: Precondition 2"
  else
    let rules_text := strip rules
    if MAX_RULE_LENGTH * 10 < rules_text.data.length then
      .error "Parameter \x27rules\x27 exceeds maximum length of 5000"
    else
      let pieces := (splitRulesRaw rules_text).map strip
      let rule_list := pieces.filter (fun r => !r.data.isEmpty)
      if rule_list.any (fun r => MAX_RULE_LENGTH < r.data.length) then
        .error "Parameter exceeds maximum length of 500"
      else if rule_list.isEmpty then
        .error "No valid rules found after parsing"
      else
        .ok (finishConv (rule_list.foldl processRule ⟨[], [], []⟩))

/-! ## JSON values

The validators and the conflict detector operate on parsed JSON, which
is dynamically typed in the source; `JVal` models the parsed values
(numbers restricted to integers, floats not needed by any claim).
Objects are insertion-ordered association lists with the uniqueness of
keys guaranteed by the JSON parser. -/

inductive JVal where
  | jnull
  | jbool (b : Bool)
  | jnum (n : Int)
  | jstr (s : String)
  | jarr (elems : List JVal)
  | jobj (fields : List (String × JVal))
deriving Repr

/-- Dictionary lookup on an object field list. -/
def jLookup : List (String × JVal) → String → Option JVal
  | [], _ => none
  | (k, v) :: rest, key => if k == key then some v else jLookup rest key

/-- Python truthiness of a JSON value: `None`, `False`, `0`, `""`, `[]`,
`Nat.zero`-like empties are falsy. -/
def JVal.falsy : JVal → Bool
  | .jnull => true
  | .jbool b => !b
  | .jnum n => n == 0
  | .jstr s => s.data.isEmpty
  | .jarr xs => xs.isEmpty
  | .jobj kvs => kvs.isEmpty

/-- Truthiness of an optional lookup result (absent keys behave like
`None`). -/
def optFalsy : Option JVal → Bool
  | none => true
  | some v => v.falsy

/-- Test whether an optional value is exactly the string `"command"`,
modelling the comparison `hook.get("type") != "command"`. -/
def isStrCommand : Option JVal → Bool
  | some (.jstr s) => s == "command"
  | _ => false

/-! ## Structural validation (`validate_hooks`, rule2hook_mcp_server.py)

Issue and warning messages are f-strings in the source; they are
modelled by constructors carrying exactly the data interpolated into
each message, so distinct messages stay distinct. -/

/-- One entry of the accumulated `issues` list. -/
inductive Issue where
  | rootNotObject
  | missingHooksKey
  | hooksNotObject
  | eventNotArray (event : String)
  | groupNotObject (event : String) (i : Nat)
  | missingHooksArray (event : String) (i : Nat)
  | hooksNotArray (event : String) (i : Nat)
  | hookNotObject (event : String) (i : Nat) (j : Nat)
  | missingCommand (event : String) (i : Nat) (j : Nat)
deriving Repr, DecidableEq

/-- One entry of the accumulated `warnings` list. -/
inductive Warning where
  | unknownEvent (event : String)
  | badType (event : String) (i : Nat) (j : Nat) (found : Option JVal)
deriving Repr

/-- One entry of `hooks_summary`. -/
structure SummaryEntry where
  event : String
  matcher : JVal
  command : JVal
deriving Repr

/-- Accumulated validation state. -/
structure VState where
  issues : List Issue
  warnings : List Warning
  total : Nat
  summary : List SummaryEntry
deriving Repr

/-- The set of known events used by both validators. -/
def validEvents : List String := ["PreToolUse", "PostToolUse", "Stop", "Notification"]

/-- Python `len` on a JSON value: defined on strings, lists and dicts,
a `TypeError` (modelled as `none`) otherwise. -/
def pyLen : JVal → Option Nat
  | .jstr s => some s.data.length
  | .jarr xs => some xs.length
  | .jobj kvs => some kvs.length
  | _ => none

/-- The summary value `command[:50] + "..." if len(command) > 50 else
command`: truncation for strings, a `TypeError` for truthy non-string
values longer than 50, the value itself otherwise. -/
def truncCommand (v : JVal) : Option JVal := do
  let n ← pyLen v
  if 50 < n then
    match v with
    | .jstr s => some (.jstr (String.mk (s.data.take 50 ++ "...".data)))
    | _ => none
  else some v

/-- Validation of a single hook entry (innermost loop of
`validate_hooks`): non-objects are recorded as issues; a `type` other
than the string `"command"` (including an absent `type`) is recorded as
a warning; a falsy or absent `command` is an issue; otherwise the hook
is counted and summarized. -/
def processHook (ev : String) (i : Nat) (matcher : JVal) (j : Nat) (hook : JVal)
    (st : VState) : Option VState :=
  match hook with
  | .jobj fields =>
      let htype := jLookup fields "type"
      let cmd := jLookup fields "command"
      let st1 :=
        if isStrCommand htype then st
        else { st with warnings := st.warnings ++ [.badType ev i j htype] }
      if optFalsy cmd then
        some { st1 with issues := st1.issues ++ [.missingCommand ev i j] }
      else
        match cmd with
        | some c => do
            let disp ← truncCommand c
            some { st1 with
                     total := st1.total + 1,
                     summary := st1.summary ++
                       [⟨ev, if matcher.falsy then .jstr "All tools" else matcher, disp⟩] }
        | none => none
  | _ => some { st with issues := st.issues ++ [.hookNotObject ev i j] }

/-- Loop over the entries of one `hooks` array. -/
def processHookList (ev : String) (i : Nat) (matcher : JVal) :
    Nat → List JVal → VState → Option VState
  | _, [], st => some st
  | j, h :: hs, st => do
      let st' ← processHook ev i matcher j h st
      processHookList ev i matcher (j + 1) hs st'

/-- Validation of one hook group: non-objects, a missing `hooks` key and
a non-array `hooks` value are issues; otherwise descend into the
entries. -/
def processGroup (ev : String) (i : Nat) (g : JVal) (st : VState) : Option VState :=
  match g with
  | .jobj fields =>
      let matcher := (jLookup fields "matcher").getD (.jstr "")
      match jLookup fields "hooks" with
      | none => some { st with issues := st.issues ++ [.missingHooksArray ev i] }
      | some (.jarr hooks) => processHookList ev i matcher 0 hooks st
      | some _ => some { st with issues := st.issues ++ [.hooksNotArray ev i] }
  | _ => some { st with issues := st.issues ++ [.groupNotObject ev i] }

/-- Loop over the groups of one event. -/
def processGroups (ev : String) : Nat → List JVal → VState → Option VState
  | _, [], st => some st
  | i, g :: gs, st => do
      let st' ← processGroup ev i g st
      processGroups ev (i + 1) gs st'

/-- Validation of one event binding: unknown event names are warnings, a
non-array value is an issue (skipping descent), an array is traversed
group by group. -/
def processEvent (p : String × JVal) (st : VState) : Option VState :=
  let st :=
    if validEvents.contains p.1 then st
    else { st with warnings := st.warnings ++ [.unknownEvent p.1] }
  match p.2 with
  | .jarr groups => processGroups p.1 0 groups st
  | _ => some { st with issues := st.issues ++ [.eventNotArray p.1] }

/-- Loop over all event bindings of the `hooks` object. -/
def processEvents : List (String × JVal) → VState → Option VState
  | [], st => some st
  | p :: ps, st => do
      let st' ← processEvent p st
      processEvents ps st'

/-- The full payload returned after a complete traversal. -/
structure ValidateResult where
  status : String
  issues : List Issue
  warnings : List Warning
  hooks_summary : List SummaryEntry
  total_hooks : Nat
deriving Repr

/-- Outcome of `validate_hooks`: an early top-level abort (which returns
a reduced payload with a single issue), a completed traversal, or an
unhandled exception. -/
inductive VOut where
  | earlyError (issues : List Issue)
  | result (r : ValidateResult)
  | crash
deriving Repr

/-- Assemble the final payload: status is `success` exactly when the
issue list is empty. -/
def finishValidate (st : VState) : ValidateResult :=
  { status := if st.issues.isEmpty then "success" else "error",
    issues := st.issues,
    warnings := st.warnings,
    hooks_summary := st.summary,
    total_hooks := st.total }

/-- Function `validate_hooks` on a parsed document: the two top-level
checks abort early; otherwise the event map is traversed accumulating
issues and warnings. -/
def validate_hooks (config : JVal) : VOut :=
  match config with
  | .jobj fields =>
      match jLookup fields "hooks" with
      | none => .earlyError [.missingHooksKey]
      | some (.jobj evs) =>
          match processEvents evs ⟨[], [], 0, []⟩ with
          | none => .crash
          | some st => .result (finishValidate st)
      | some _ => .earlyError [.hooksNotObject]
  | _ => .earlyError [.rootNotObject]

/-! ## CLI validation (`validate_hooks_file`, validate-hooks.py)

The CLI validator returns `False` only from its top-level checks; the
per-group and per-entry checks print diagnostics and `continue`.  The
embedding takes the already-parsed document (file existence and JSON
parse failures, which also return `False`, are external I/O).  The
result is `none` when the traversal raises (printing a truthy
non-string, non-list command raises `TypeError`). -/

/-- Per-entry traversal of the CLI validator: only the command print can
raise; every structural problem is printed and skipped. -/
def cliHookOk (hook : JVal) : Option Unit :=
  match hook with
  | .jobj fields =>
      let cmd := jLookup fields "command"
      if optFalsy cmd then some ()
      else
        match cmd with
        | some (.jstr _) => some ()
        | some (.jarr _) => some ()
        | _ => none
  | _ => some ()

/-- Loop over the entries of one CLI hooks array. -/
def cliHookListOk : List JVal → Option Unit
  | [] => some ()
  | h :: hs => do
      let _ ← cliHookOk h
      cliHookListOk hs

/-- Per-group traversal of the CLI validator: all problems are printed
and skipped. -/
def cliGroupOk (g : JVal) : Option Unit :=
  match g with
  | .jobj fields =>
      match jLookup fields "hooks" with
      | some (.jarr hooks) => cliHookListOk hooks
      | _ => some ()
  | _ => some ()

/-- Loop over the groups of one CLI event. -/
def cliGroupListOk : List JVal → Option Unit
  | [] => some ()
  | g :: gs => do
      let _ ← cliGroupOk g
      cliGroupListOk gs

/-- Loop over the event bindings: a non-array event value returns
`False` immediately; arrays are traversed (possibly raising) and the
scan continues. -/
def cliEventsScan : List (String × JVal) → Option Bool
  | [] => some true
  | (_, v) :: rest =>
      match v with
      | .jarr groups => do
          let _ ← cliGroupListOk groups
          cliEventsScan rest
      | _ => some false

/-- Function `validate_hooks_file` on a parsed document: `False` for a
non-object root, a missing `hooks` key, a non-object `hooks` value, or
a non-array event value; `True` after any complete traversal,
regardless of per-group or per-entry problems. -/
def validate_hooks_file (config : JVal) : Option Bool :=
  match config with
  | .jobj fields =>
      match jLookup fields "hooks" with
      | some (.jobj evs) => cliEventsScan evs
      | some _ => some false
      | none => some false
  | _ => some false

/-! ## Conflict detection (`detect_conflicts`, rule2hook_mcp_server.py)

The detector indexes the existing document by event and truthy matcher,
then scans the new document for matcher collisions.  Python dictionary
keys are compared with `==`, under which booleans coincide with the
integers 0 and 1; lists and dicts are unhashable and raise.  Unhandled
exceptions (in particular the `IndexError` of the first-command lookup
on an empty `hooks` list) are modelled as `none`. -/

/-- Equality of JSON scalars as Python dictionary keys (`True == 1`,
`False == 0`). -/
def pyKeyEq : JVal → JVal → Bool
  | .jnull, .jnull => true
  | .jbool a, .jbool b => a == b
  | .jbool a, .jnum n => (if a then (1 : Int) else 0) == n
  | .jnum n, .jbool a => n == (if a then (1 : Int) else 0)
  | .jnum a, .jnum b => a == b
  | .jstr a, .jstr b => a == b
  | _, _ => false

/-- Hashability of a JSON value as a Python dictionary key. -/
def JVal.hashable : JVal → Bool
  | .jarr _ => false
  | .jobj _ => false
  | _ => true

/-- Dictionary assignment with JSON-value keys: overwrite in place or
append. -/
def insertKey : List (JVal × JVal) → JVal → JVal → List (JVal × JVal)
  | [], k, v => [(k, v)]
  | (k0, v0) :: rest, k, v =>
      if pyKeyEq k0 k then (k0, v) :: rest else (k0, v0) :: insertKey rest k v

/-- Key membership with JSON-value keys. -/
def keyMember : List (JVal × JVal) → JVal → Bool
  | [], _ => false
  | (k0, _) :: rest, k => pyKeyEq k k0 || keyMember rest k

/-- Key lookup with JSON-value keys. -/
def lookupKey : List (JVal × JVal) → JVal → Option JVal
  | [], _ => none
  | (k0, v0) :: rest, k => if pyKeyEq k k0 then some v0 else lookupKey rest k

/-- Dictionary assignment with string keys: overwrite in place or
append. -/
def strInsert {α : Type} : List (String × α) → String → α → List (String × α)
  | [], k, v => [(k, v)]
  | (k0, v0) :: rest, k, v =>
      if k0 == k then (k0, v) :: rest else (k0, v0) :: strInsert rest k v

/-- Assoc lookup with string keys. -/
def strAssocLookup {α : Type} : List (String × α) → String → Option α
  | [], _ => none
  | (k0, v0) :: rest, k => if k0 == k then some v0 else strAssocLookup rest k

/-- Python `v.get(key, default)`: `none` models the `AttributeError` on
non-dicts. -/
def pyGetD (v : JVal) (k : String) (d : JVal) : Option JVal :=
  match v with
  | .jobj kvs => some ((jLookup kvs k).getD d)
  | _ => none

/-- Python `.items()`: `none` models the `AttributeError` on non-dicts. -/
def asObjItems : JVal → Option (List (String × JVal))
  | .jobj kvs => some kvs
  | _ => none

/-- Python iteration over an event value as a sequence of hook groups.
Lists yield their elements.  Empty dicts and empty strings iterate zero
times; non-empty dicts and strings yield string elements on which the
subsequent `.get` raises, and other values are not iterable — all
modelled as `none`. -/
def asGroupIter : JVal → Option (List JVal)
  | .jarr xs => some xs
  | .jobj [] => some []
  | .jstr s => if s.data.isEmpty then some [] else none
  | _ => none

/-- The first-command lookup
`hook_group.get("hooks", [{}])[0].get("command", "")`: an absent
`hooks` key defaults to a one-element list of an empty dict; an empty
list raises `IndexError`; non-list values and non-dict first elements
raise as well. -/
def firstCommandOf (fields : List (String × JVal)) : Option JVal :=
  match (jLookup fields "hooks").getD (.jarr [.jobj []]) with
  | .jarr (first :: _) =>
      match first with
      | .jobj hf => some ((jLookup hf "command").getD (.jstr ""))
      | _ => none
  | _ => none

/-- Indexing of one existing group: skip falsy matchers, record the
first command under the matcher key, raise on unhashable keys. -/
def indexGroup (idxEv : List (JVal × JVal)) (g : JVal) : Option (List (JVal × JVal)) :=
  match g with
  | .jobj fields =>
      let matcher := (jLookup fields "matcher").getD (.jstr "")
      if matcher.falsy then some idxEv
      else if matcher.hashable then do
        let fc ← firstCommandOf fields
        some (insertKey idxEv matcher fc)
      else none
  | _ => none

/-- Loop over the existing groups of one event. -/
def indexGroups : List (JVal × JVal) → List JVal → Option (List (JVal × JVal))
  | idxEv, [] => some idxEv
  | idxEv, g :: gs => do
      let idxEv' ← indexGroup idxEv g
      indexGroups idxEv' gs

/-- Construction of `existing_matchers`: every existing event gets an
entry (empty when no truthy matcher occurs). -/
def buildIndex : List (String × JVal) → List (String × List (JVal × JVal)) →
    Option (List (String × List (JVal × JVal)))
  | [], idx => some idx
  | (ev, hooksList) :: rest, idx => do
      let groups ← asGroupIter hooksList
      let inner ← indexGroups [] groups
      buildIndex rest (strInsert idx ev inner)

/-- One detected conflict, carrying the colliding matcher and the two
first commands. -/
structure Conflict where
  event : String
  matcher : JVal
  existing_command : JVal
  new_command : JVal
deriving Repr

/-- The payload of `detect_conflicts` (constant status and message
fields omitted). -/
structure DetectResult where
  has_conflicts : Bool
  conflicts : List Conflict
deriving Repr

/-- Scan of one new group against the index of its event: a truthy
matcher already present yields one conflict; falsy matchers never do;
unhashable truthy matchers raise in the membership test. -/
def scanGroup (ev : String) (idxEv : List (JVal × JVal)) (g : JVal) :
    Option (List Conflict) :=
  match g with
  | .jobj fields =>
      let m := (jLookup fields "matcher").getD (.jstr "")
      if m.falsy then some []
      else if m.hashable then
        if keyMember idxEv m then do
          let ec ← lookupKey idxEv m
          let nc ← firstCommandOf fields
          some [⟨ev, m, ec, nc⟩]
        else some []
      else none
  | _ => none

/-- Loop over the new groups of one event. -/
def scanGroups (ev : String) (idxEv : List (JVal × JVal)) :
    List JVal → Option (List Conflict)
  | [] => some []
  | g :: gs => do
      let cs ← scanGroup ev idxEv g
      let rest ← scanGroups ev idxEv gs
      some (cs ++ rest)

/-- Scan of the new document: events absent from the index are skipped
without iterating their groups. -/
def scanEvents (idx : List (String × List (JVal × JVal))) :
    List (String × JVal) → Option (List Conflict)
  | [] => some []
  | (ev, v) :: rest =>
      match strAssocLookup idx ev with
      | some idxEv => do
          let gs ← asGroupIter v
          let cs ← scanGroups ev idxEv gs
          let cs' ← scanEvents idx rest
          some (cs ++ cs')
      | none => scanEvents idx rest

/-- Function `detect_conflicts` on the two parsed documents: build the
existing event-and-matcher index, scan the new document, and report
`has_conflicts = (number of conflicts > 0)`. -/
def detect_conflicts (existing_config new_config : JVal) : Option DetectResult := do
  let existing_hooks ← pyGetD existing_config "hooks" (.jobj [])
  let new_hooks ← pyGetD new_config "hooks" (.jobj [])
  let eh ← asObjItems existing_hooks
  let nh ← asObjItems new_hooks
  let idx ← buildIndex eh []
  let conflicts ← scanEvents idx nh
  some { has_conflicts := !conflicts.isEmpty, conflicts := conflicts }

/-! ## Typed hook documents

The data model of hook-configuration documents (HookEntry, HookGroup,
HooksConfig): the universe over which the conflict-detection claim
quantifies.  `toJVal` injects a typed document into its parsed-JSON
form, the input shape of `detect_conflicts`. -/

/-- A typed hook entry; its JSON form carries `type "command"`. -/
structure TEntry where
  command : String
deriving Repr, DecidableEq

/-- A typed hook group: optional matcher and entry list. -/
structure TGroup where
  matcher : Option String
  entries : List TEntry
deriving Repr, DecidableEq

/-- A typed hooks document: insertion-ordered event map. -/
structure TDoc where
  events : List (String × List TGroup)
deriving Repr, DecidableEq

/-- JSON form of a typed entry. -/
def TEntry.toJVal (e : TEntry) : JVal :=
  .jobj [("type", .jstr "command"), ("command", .jstr e.command)]

/-- JSON form of a typed group (the matcher field is present exactly
when the typed matcher is). -/
def TGroup.toJVal (g : TGroup) : JVal :=
  match g.matcher with
  | some m => .jobj [("matcher", .jstr m), ("hooks", .jarr (g.entries.map TEntry.toJVal))]
  | none => .jobj [("hooks", .jarr (g.entries.map TEntry.toJVal))]

/-- JSON form of one event binding. -/
def eventToJVal (p : String × List TGroup) : String × JVal :=
  (p.1, JVal.jarr (p.2.map TGroup.toJVal))

/-- JSON form of a typed document. -/
def TDoc.toJVal (d : TDoc) : JVal :=
  .jobj [("hooks", .jobj (d.events.map eventToJVal))]

/-- Well-formedness of a typed document: event keys are unique (JSON
objects) and every group has a non-empty entry list (the HookGroup
invariant of the data model). -/
def TDoc.wf (d : TDoc) : Prop :=
  (d.events.map Prod.fst).Nodup ∧ ∀ p ∈ d.events, ∀ g ∈ p.2, g.entries ≠ []

/-- First command of a typed group (empty fallback unused on well-formed
groups). -/
def TGroup.firstCmd (g : TGroup) : String :=
  match g.entries with
  | e :: _ => e.command
  | [] => ""

/-- Specification-side test, written from the claim: does the existing
document define, under `ev`, a group whose matcher equals `m`? -/
def TDoc.hasMatcher (d : TDoc) (ev m : String) : Bool :=
  match strAssocLookup d.events ev with
  | some gs => gs.any fun g => g.matcher == some m
  | none => false

/-- Specification-side conflict enumeration, written from the claim: one
`(event, matcher)` pair for each group of the new document whose
matcher is non-empty and equal to the matcher of some group under the
same event in the existing document, in new-document order. -/
def spec_conflict_pairs (e n : TDoc) : List (String × String) :=
  (n.events.map fun p =>
    p.2.filterMap fun g =>
      match g.matcher with
      | some m =>
          if !m.data.isEmpty && e.hasMatcher p.1 m then some (p.1, m) else none
      | none => none).flatten

/-- Projection of a conflict to its identifying pair. -/
def pairOf (c : Conflict) : String × JVal := (c.event, c.matcher)

/-- The per-group step of the typed matcher index (dictionary insertion
of the first command under each truthy matcher). -/
def tGroupStep (acc : List (JVal × JVal)) (g : TGroup) : List (JVal × JVal) :=
  match g.matcher with
  | some m =>
      if m.data.isEmpty then acc
      else insertKey acc (.jstr m) (.jstr g.firstCmd)
  | none => acc

/-- Typed matcher index of one event of the existing document. -/
def tGroupIndex (gs : List TGroup) : List (JVal × JVal) :=
  gs.foldl tGroupStep []

/-! ## Concrete documents used by the claims -/

/-- Existing document of the conflict scenario:
`PostToolUse [{matcher "Edit", command "black ."}]`. -/
def conflictExisting : TDoc :=
  ⟨[("PostToolUse", [⟨some "Edit", [⟨"black ."⟩]⟩])]⟩

/-- New document of the conflict scenario:
`PostToolUse [{matcher "Edit", command "autopep8 ."}]`. -/
def conflictNew : TDoc :=
  ⟨[("PostToolUse", [⟨some "Edit", [⟨"autopep8 ."⟩]⟩])]⟩

/-- A document whose only group carries a truthy matcher together with
an explicitly empty `hooks` list: the first-command lookup indexes into
the empty list. -/
def emptyHooksDoc : JVal :=
  .jobj [("hooks", .jobj [("PostToolUse",
    .jarr [.jobj [("matcher", .jstr "Edit"), ("hooks", .jarr [])]])])]

/-- A structurally invalid document (its only hook entry has no
command), used against the CLI validator. -/
def missingCommandDoc : JVal :=
  .jobj [("hooks", .jobj [("PostToolUse",
    .jarr [.jobj [("hooks", .jarr [.jobj [("type", .jstr "command")]])]])])]

/-- A document whose only hook entry lacks a `type` key but has a
command. -/
def noTypeDoc : JVal :=
  .jobj [("hooks", .jobj [("PostToolUse",
    .jarr [.jobj [("matcher", .jstr "Edit"),
                  ("hooks", .jarr [.jobj [("command", .jstr "black .")]])]])])]

/-- A hooks object binding `PostToolUse` to an empty array. -/
def emptyEventDoc : JVal :=
  .jobj [("hooks", .jobj [("PostToolUse", .jarr [])])]

/-- A hooks object binding `PostToolUse` to a string. -/
def strEventDoc : JVal :=
  .jobj [("hooks", .jobj [("PostToolUse", .jstr "not-an-object-array")])]

/-- The batch input of the partial-conversion scenario. -/
def partialBatch : String := "Format Python files after editing, xyzzy plugh"

/-- The payload produced for `partialBatch`: one conversion, one
failure, status partial. -/
def partialRes : ConvResult :=
  { status := "partial",
    hooks_config := [("PostToolUse",
      [⟨some "Edit|MultiEdit|Write",
        [⟨"command", "python 2>/dev/null || true"⟩]⟩])],
    converted_rules :=
      [⟨"Format Python files after editing", "PostToolUse",
        ["Edit", "MultiEdit", "Write"], "python 2>/dev/null || true"⟩],
    failed_rules := [("xyzzy plugh", parseErrorMsg "xyzzy plugh")] }

/-- The payload produced for the single black-formatting rule. -/
def blackRes : ConvResult :=
  { status := "success",
    hooks_config := [("PostToolUse",
      [⟨some "Edit|MultiEdit|Write",
        [⟨"command", "black . --quiet 2>/dev/null || true"⟩]⟩])],
    converted_rules :=
      [⟨"Format Python files with black after editing", "PostToolUse",
        ["Edit", "MultiEdit", "Write"], "black . --quiet 2>/dev/null || true"⟩],
    failed_rules := [] }

/-- The declared tool order: file-ops, command-ops, search-ops,
read-ops, web-ops, todo-ops. -/
def declaredToolOrder : List String :=
  ["Edit", "MultiEdit", "Write", "Bash", "Grep", "Glob", "Read",
   "WebFetch", "WebSearch", "TodoRead", "TodoWrite"]

end Rule2Hook

namespace Rule2Hook

/-! ## Theorems

One theorem per claim (C1 to C10 of the specification review), each
preceded by the helper lemmas its proof needs. -/

/-- Generic first-match characterization of `List.find?`: it returns
the element at the first index whose predicate holds. -/

theorem find?_first_of_matches {α : Type} (p : α → Bool) :
    ∀ (l : List α) (k : Nat) (hk : k < l.length),
    p (l.get ⟨k, hk⟩) = true →
    (∀ (j : Nat) (hj : j < l.length), j < k → p (l.get ⟨j, hj⟩) = false) →
    l.find? p = some (l.get ⟨k, hk⟩) := by
  intro l
  induction l with
  | nil => intro k hk; exact absurd hk (by simp)
  | cons a t ih =>
      intro k hk hp hbefore
      cases k with
      | zero =>
          simp only [List.get] at hp
          simp [List.find?_cons_of_pos, hp]
      | succ k' =>
          have ha : p a = false := hbefore 0 (by simp) (Nat.succ_pos k')
          rw [List.find?_cons_of_neg _ (by simp [ha])]
          exact ih k' (Nat.lt_of_succ_lt_succ hk) hp
            (fun j hj hjk => hbefore (j + 1) (by simpa using Nat.succ_lt_succ hj)
              (Nat.succ_lt_succ hjk))

/-- The classifier returns the first event in declared table order
whose keyword set matches. -/
theorem determine_event_first (rule : String) (k : Nat) (hk : k < HOOK_EVENTS.length)
    (hmatch : (HOOK_EVENTS.get ⟨k, hk⟩).2.any
        (fun kw => containsL kw.data (lowerChars rule.data)) = true)
    (hbefore : ∀ (j : Nat) (hj : j < HOOK_EVENTS.length), j < k →
        (HOOK_EVENTS.get ⟨j, hj⟩).2.any
          (fun kw => containsL kw.data (lowerChars rule.data)) = false) :
    determine_event rule = (HOOK_EVENTS.get ⟨k, hk⟩).1 := by
  simp only [determine_event]
  rw [find?_first_of_matches _ HOOK_EVENTS k hk hmatch hbefore]

/-- C4: for every non-empty rule text the Event Classifier totally and
deterministically returns exactly one of the four events PreToolUse,
PostToolUse, Stop, Notification; it chooses the first event in declared
table order whose keyword set has a substring match in the lower-cased
text (so a rule containing both "before" and "after" classifies as
PreToolUse); when no keyword matches it returns PostToolUse when the
text contains one of "edit", "modify", "save", "write", and Stop
otherwise. -/
theorem claim_C4 :
    (∀ rule : String,
        determine_event rule ∈ ["PreToolUse", "PostToolUse", "Stop", "Notification"])
    ∧ (∀ (rule : String) (k : Nat) (hk : k < HOOK_EVENTS.length),
        (HOOK_EVENTS.get ⟨k, hk⟩).2.any
            (fun kw => containsL kw.data (lowerChars rule.data)) = true →
        (∀ (j : Nat) (hj : j < HOOK_EVENTS.length), j < k →
          (HOOK_EVENTS.get ⟨j, hj⟩).2.any
              (fun kw => containsL kw.data (lowerChars rule.data)) = false) →
        determine_event rule = (HOOK_EVENTS.get ⟨k, hk⟩).1)
    ∧ (∀ rule : String, containsL "before".data (lowerChars rule.data) = true →
        containsL "after".data (lowerChars rule.data) = true →
        determine_event rule = "PreToolUse")
    ∧ (∀ rule : String,
        (∀ p ∈ HOOK_EVENTS, ∀ kw ∈ p.2, containsL kw.data (lowerChars rule.data) = false) →
        determine_event rule =
          if editWords.any (fun w => containsL w.data (lowerChars rule.data)) then "PostToolUse"
          else "Stop") := by
  refine ⟨?_, determine_event_first, ?_, ?_⟩
  · intro rule
    simp only [determine_event]
    cases hf : HOOK_EVENTS.find? (fun p => p.2.any (fun kw => containsL kw.data (lowerChars rule.data))) with
    | none => dsimp only; split <;> simp
    | some p =>
      dsimp only
      have hp := List.mem_of_find?_eq_some hf
      fin_cases hp <;> simp
  · intro rule hb _ha
    simp only [determine_event]
    have hfind : HOOK_EVENTS.find? (fun p => p.2.any (fun kw => containsL kw.data (lowerChars rule.data)))
        = some ("PreToolUse", ["before", "check", "validate", "prevent", "scan", "verify"]) := by
      simp [HOOK_EVENTS, List.find?, hb]
    rw [hfind]
  · intro rule hnone
    simp only [determine_event]
    have hfind : HOOK_EVENTS.find? (fun p => p.2.any (fun kw => containsL kw.data (lowerChars rule.data))) = none := by
      rw [List.find?_eq_none]
      intro p hp
      simp only [List.any_eq_true, not_exists]
      intro kw h
      rcases h with ⟨hkw, hc⟩
      rw [hnone p hp kw hkw] at hc
      exact Bool.false_ne_true hc
    rw [hfind]

/-- Witness for C4 at concrete rules, including one for each
hypothesis-bearing conjunct. -/
theorem claim_C4_witness :
    determine_event "notify me" = "Notification"
    ∧ determine_event "run before and after" = "PreToolUse"
    ∧ determine_event "xyzzy plugh" = "Stop" := by
  refine ⟨?_, claim_C4.2.2.1 "run before and after" (by decide) (by decide), ?_⟩
  · have h := claim_C4.2.1 "notify me" 3 (by decide) (by decide)
      (by intro j hj hjk
          interval_cases j
          · rfl
          · rfl
          · rfl)
    exact h.trans rfl
  · have h := claim_C4.2.2.2 "xyzzy plugh" (by decide)
    exact h.trans (by decide)

/-- Facts about the accumulated tool list as a function of the six
keyword-group flags: no duplicates, a sublist of the declared order,
per-group membership, and emptiness when no group fires — checked over
all 64 flag combinations. -/
theorem toolsFromFlags_facts : ∀ f1 f2 f3 f4 f5 f6 : Bool,
    (dedupKeepFirst (toolsFromFlags f1 f2 f3 f4 f5 f6)).Nodup
    ∧ (dedupKeepFirst (toolsFromFlags f1 f2 f3 f4 f5 f6)).Sublist declaredToolOrder
    ∧ ("Edit" ∈ dedupKeepFirst (toolsFromFlags f1 f2 f3 f4 f5 f6) ↔ f1 = true)
    ∧ ("Bash" ∈ dedupKeepFirst (toolsFromFlags f1 f2 f3 f4 f5 f6) ↔ f2 = true)
    ∧ ("Grep" ∈ dedupKeepFirst (toolsFromFlags f1 f2 f3 f4 f5 f6) ↔ f3 = true)
    ∧ ("Read" ∈ dedupKeepFirst (toolsFromFlags f1 f2 f3 f4 f5 f6) ↔ f4 = true)
    ∧ ("WebFetch" ∈ dedupKeepFirst (toolsFromFlags f1 f2 f3 f4 f5 f6) ↔ f5 = true)
    ∧ ("TodoRead" ∈ dedupKeepFirst (toolsFromFlags f1 f2 f3 f4 f5 f6) ↔ f6 = true)
    ∧ (dedupKeepFirst (toolsFromFlags false false false false false false) = []) := by
  decide

/-- C7: for every rule text the Tool Matcher returns a sequence of tool
identifiers with no duplicates, in first-occurrence order following the
fixed group declaration order (each group contributing independently,
witnessed by the per-tool membership facts of `toolsFromFlags_facts`);
on "Format Python files with black after editing" it returns exactly
Edit, MultiEdit, Write, and on text matching no group it returns the
empty sequence. -/
theorem claim_C7 :
    (∀ rule : String, (determine_tools rule).Nodup)
    ∧ (∀ rule : String, (determine_tools rule).Sublist declaredToolOrder)
    ∧ determine_tools "Format Python files with black after editing" = ["Edit", "MultiEdit", "Write"]
    ∧ (∀ rule : String,
        (∀ w ∈ fileOpWords, containsL w.data (lowerChars rule.data) = false) →
        (∀ w ∈ commandOpWords, containsL w.data (lowerChars rule.data) = false) →
        (∀ w ∈ searchOpWords, containsL w.data (lowerChars rule.data) = false) →
        containsL "read".data (lowerChars rule.data) = false →
        (∀ w ∈ webOpWords, containsL w.data (lowerChars rule.data) = false) →
        containsL "todo".data (lowerChars rule.data) = false →
        determine_tools rule = []) := by
  refine ⟨?_, ?_, by decide, ?_⟩
  · intro rule
    simp only [determine_tools]
    exact (toolsFromFlags_facts _ _ _ _ _ _).1
  · intro rule
    simp only [determine_tools]
    exact (toolsFromFlags_facts _ _ _ _ _ _).2.1
  · intro rule h1 h2 h3 h4 h5 h6
    simp only [determine_tools]
    have e1 : fileOpWords.any (fun w => containsL w.data (lowerChars rule.data)) = false := by
      simp only [List.any_eq_false]
      intro w hw
      simp [h1 w hw]
    have e2 : commandOpWords.any (fun w => containsL w.data (lowerChars rule.data)) = false := by
      simp only [List.any_eq_false]
      intro w hw
      simp [h2 w hw]
    have e3 : searchOpWords.any (fun w => containsL w.data (lowerChars rule.data)) = false := by
      simp only [List.any_eq_false]
      intro w hw
      simp [h3 w hw]
    have e5 : webOpWords.any (fun w => containsL w.data (lowerChars rule.data)) = false := by
      simp only [List.any_eq_false]
      intro w hw
      simp [h5 w hw]
    rw [e1, e2, e3, h4, e5, h6]
    exact (toolsFromFlags_facts true true true true true true).2.2.2.2.2.2.2.2

/-- Witness for C7 at concrete rules. -/
theorem claim_C7_witness :
    (determine_tools "Format Python files with black after editing").Nodup
    ∧ determine_tools "xyzzy" = [] := by
  refine ⟨claim_C7.1 "Format Python files with black after editing", ?_⟩
  exact claim_C7.2.2.2 "xyzzy" (by decide) (by decide) (by decide) (by decide) (by decide) (by decide)

/-- C5: the Command Extractor applies its rules in strict priority with
short-circuit: a backtick-delimited substring is returned verbatim
before any other rule is consulted; the backtick example yields
"npm run build"; the black-formatting rule yields the phrase-table
command; and a rule matching no backtick, qualifying quote, phrase, or
verb-object pattern yields none. -/
theorem claim_C5 :
    (∀ (rule : String) (s : List Char),
        delimSearch backtickChar rule.data = some s →
        extract_command rule = some (String.mk s))
    ∧ extract_command "Run `npm run build` after editing" = some "npm run build"
    ∧ extract_command "Format Python files with black after editing"
        = some "black . --quiet 2>/dev/null || true"
    ∧ (∀ rule : String,
        delimSearch backtickChar rule.data = none →
        (∀ cs, delimSearch quoteChar rule.data = some cs → quoteQualifies cs = false) →
        (containsL "black".data (lowerChars rule.data) && containsL "python".data (lowerChars rule.data)) = false →
        containsL "prettier".data (lowerChars rule.data) = false →
        containsL "git status".data (lowerChars rule.data) = false →
        containsL "npm test".data (lowerChars rule.data) = false →
        containsL "npm run lint".data (lowerChars rule.data) = false →
        (containsL "todo".data (lowerChars rule.data) && containsL "comment".data (lowerChars rule.data)) = false →
        (containsL "secret".data (lowerChars rule.data) || containsL "credential".data (lowerChars rule.data)) = false →
        verbSearch (lowerChars rule.data) = none →
        extract_command rule = none) := by
  refine ⟨?_, by decide, by decide, ?_⟩
  · intro rule s h
    simp only [extract_command, h]
  · intro rule hb hq h1 h2 h3 h4 h5 h6 h7 hv
    simp only [extract_command, hb]
    cases hqs : delimSearch quoteChar rule.data with
    | none =>
        simp [phraseOrVerb, h1, h2, h3, h4, h5, h6, h7, hv]
    | some cs =>
        have hfq := hq cs hqs
        simp [phraseOrVerb, hfq, h1, h2, h3, h4, h5, h6, h7, hv]

/-- Witness for C5: the backtick rule applied at a concrete input, and
the all-patterns-fail case at a concrete input. -/
theorem claim_C5_witness :
    extract_command "Run `npm run build` after editing" = some (String.mk ("npm run build").data)
    ∧ extract_command "hello world" = none := by
  refine ⟨claim_C5.1 "Run `npm run build` after editing" ("npm run build").data (by decide), ?_⟩
  have hq : ∀ cs, delimSearch quoteChar ("hello world" : String).data = some cs → quoteQualifies cs = false := by
    intro cs h
    have hn : delimSearch quoteChar ("hello world" : String).data = none := by decide
    rw [hn] at h
    exact Option.noConfusion h
  exact claim_C5.2.2.2 "hello world" (by decide) hq (by decide) (by decide) (by decide)
    (by decide) (by decide) (by decide) (by decide) (by decide)

/-- C1: whenever convert_rules returns a payload, its status is
"success" exactly when every candidate rule converted, "partial" when
at least one converted and at least one failed (the failed rule being
recorded rather than aborting the batch), and "error" when none
converted; in particular the batch "Format Python files after editing,
xyzzy plugh" returns status "partial" with exactly one conversion
record and one failure record. -/
theorem claim_C1 :
    (∀ (rules : String) (res : ConvResult), convert_rules rules = .ok res →
        (res.converted_rules = [] → res.status = "error")
        ∧ (res.converted_rules ≠ [] → res.failed_rules ≠ [] → res.status = "partial")
        ∧ (res.converted_rules ≠ [] → res.failed_rules = [] → res.status = "success"))
    ∧ convert_rules partialBatch = .ok partialRes
    ∧ partialRes.status = "partial"
    ∧ partialRes.converted_rules.length = 1
    ∧ partialRes.failed_rules.length = 1 := by
  refine ⟨?_, rfl, rfl, rfl, rfl⟩
  intro rules res h
  simp only [convert_rules] at h
  repeat' split at h
  any_goals exact Except.noConfusion h
  injection h with h'
  subst h'
  refine ⟨?_, ?_, ?_⟩
  · intro hc
    simp only [finishConv] at hc ⊢
    simp [hc]
  · intro hc hf
    simp only [finishConv] at hc hf ⊢
    simp [List.isEmpty_iff, hc, hf]
  · intro hc hf
    simp only [finishConv] at hc hf ⊢
    simp [List.isEmpty_iff, hc, hf]

/-- Witness for C1: the partial-status implication applied at the
concrete batch. -/
theorem claim_C1_witness :
    partialRes.status = "partial" := by
  have h := (claim_C1.1 partialBatch partialRes claim_C1.2.1).2.1
  exact h (by decide) (by decide)

/-- C2: convert_rules on the single rule "Format Python files with
black after editing" produces a hooks configuration whose PostToolUse
list has, at index 0, a group with matcher exactly "Edit|MultiEdit|Write"
and a single hook entry of type "command" whose command string contains
"black". -/
theorem claim_C2 :
    convert_rules "Format Python files with black after editing" = .ok blackRes
    ∧ blackRes.hooks_config = [("PostToolUse",
        [{ matcher := some "Edit|MultiEdit|Write",
           hooks := [{ type_ := "command", command := "black . --quiet 2>/dev/null || true" }] }])]
    ∧ strContains "black . --quiet 2>/dev/null || true" "black" = true :=
  ⟨rfl, rfl, by decide⟩

/-- Lookup of the matcher field in a serialized two-field group. -/
theorem jLookup_matcher_pair (m h : JVal) :
    jLookup [("matcher", m), ("hooks", h)] "matcher" = some m := rfl

/-- Lookup of the hooks field in a serialized two-field group. -/
theorem jLookup_hooks_pair (m h : JVal) :
    jLookup [("matcher", m), ("hooks", h)] "hooks" = some h := rfl

/-- Lookup of the hooks field in a serialized matcher-less group. -/
theorem jLookup_hooks_single (h : JVal) : jLookup [("hooks", h)] "hooks" = some h := rfl

/-- Lookup of the absent matcher field in a matcher-less group. -/
theorem jLookup_matcher_single (h : JVal) : jLookup [("hooks", h)] "matcher" = none := rfl

/-- Lookup of the command field in a serialized entry. -/
theorem jLookup_command_entry (t c : JVal) :
    jLookup [("type", t), ("command", c)] "command" = some c := rfl

/-- Only a string key is Python-equal to a string key. -/
theorem pyKeyEq_jstr_right : ∀ (k : JVal) (a : String), pyKeyEq k (.jstr a) = true → k = .jstr a := by
  intro k a h
  cases k with
  | jstr s => exact congrArg JVal.jstr (eq_of_beq h)
  | jnull => simp [pyKeyEq] at h
  | jbool b => simp [pyKeyEq] at h
  | jnum n => simp [pyKeyEq] at h
  | jarr xs => simp [pyKeyEq] at h
  | jobj kvs => simp [pyKeyEq] at h

/-- Boolean equality on strings is symmetric. -/
theorem beq_comm_str (a b : String) : (a == b) = (b == a) := by
  by_cases h : a = b
  · subst h; rfl
  · rw [beq_eq_false_iff_ne.mpr h, beq_eq_false_iff_ne.mpr (Ne.symm h)]

/-- Key membership after inserting a string key. -/
theorem keyMember_insertKey_str : ∀ (l : List (JVal × JVal)) (a b : String) (v : JVal),
    keyMember (insertKey l (.jstr a) v) (.jstr b)
      = (keyMember l (.jstr b) || (b == a)) := by
  intro l a b v
  induction l with
  | nil => simp [insertKey, keyMember, pyKeyEq]
  | cons kv rest ih =>
    obtain ⟨k0, v0⟩ := kv
    simp only [insertKey]
    by_cases h : pyKeyEq k0 (.jstr a) = true
    · have hk : k0 = .jstr a := pyKeyEq_jstr_right k0 a h
      subst hk
      rw [if_pos h]
      cases hba : (b == a) <;> simp [keyMember, pyKeyEq, hba]
    · rw [if_neg h]
      simp only [keyMember, ih, Bool.or_assoc]

/-- A member key has a lookup value. -/
theorem keyMember_lookupKey : ∀ (l : List (JVal × JVal)) (k : JVal),
    keyMember l k = true → ∃ v, lookupKey l k = some v := by
  intro l k
  induction l with
  | nil => intro h; simp [keyMember] at h
  | cons kv rest ih =>
    intro h
    obtain ⟨k0, v0⟩ := kv
    simp only [keyMember] at h
    cases hpk : pyKeyEq k k0 with
    | true => exact ⟨v0, by simp [lookupKey, hpk]⟩
    | false =>
        rw [hpk] at h
        simp only [Bool.false_or] at h
        obtain ⟨v, hv⟩ := ih h
        exact ⟨v, by simp [lookupKey, hpk, hv]⟩

/-- Inserting a fresh string key appends. -/
theorem strInsert_fresh {α : Type} : ∀ (l : List (String × α)) (k : String) (v : α),
    (∀ p ∈ l, p.1 ≠ k) → strInsert l k v = l ++ [(k, v)] := by
  intro l k v
  induction l with
  | nil => intro _; rfl
  | cons q rest ih =>
    intro h
    obtain ⟨k0, v0⟩ := q
    have hne : (k0 == k) = false := by
      rw [beq_eq_false_iff_ne]
      exact h (k0, v0) (by simp)
    simp only [strInsert, hne, Bool.false_eq_true, if_false, List.cons_append, List.cons.injEq,
      true_and]
    exact ih (fun p hp => h p (by simp [hp]))

/-- Indexing a serialized well-formed group performs the typed index
step. -/
theorem indexGroup_toJVal (idxEv : List (JVal × JVal)) (g : TGroup) (hne : g.entries ≠ []) :
    indexGroup idxEv g.toJVal = some (tGroupStep idxEv g) := by
  obtain ⟨om, entries⟩ := g
  cases om with
  | none =>
      simp [TGroup.toJVal, indexGroup, tGroupStep, jLookup_matcher_single, JVal.falsy]
  | some m =>
      cases entries with
      | nil => exact absurd rfl hne
      | cons e es =>
          by_cases hm : m.data.isEmpty
          · simp [TGroup.toJVal, indexGroup, tGroupStep, jLookup_matcher_pair, JVal.falsy, hm]
          · simp [TGroup.toJVal, indexGroup, tGroupStep, jLookup_matcher_pair, JVal.falsy, hm,
                  JVal.hashable, firstCommandOf, jLookup_hooks_pair, TEntry.toJVal,
                  jLookup_command_entry, TGroup.firstCmd]

/-- Indexing a serialized group list folds the typed index step. -/
theorem indexGroups_toJVal : ∀ (gs : List TGroup) (acc : List (JVal × JVal)),
    (∀ g ∈ gs, g.entries ≠ []) →
    indexGroups acc (gs.map TGroup.toJVal) = some (gs.foldl tGroupStep acc) := by
  intro gs
  induction gs with
  | nil => intro acc _; rfl
  | cons g rest ih =>
      intro acc h
      simp only [List.map, indexGroups, List.foldl]
      rw [indexGroup_toJVal acc g (h g (by simp))]
      simp only [Option.bind_eq_bind, Option.some_bind]
      exact ih (tGroupStep acc g) (fun g' hg' => h g' (by simp [hg']))

/-- Index construction on a serialized document folds per-event typed
indexes into the accumulator. -/
theorem buildIndex_toJVal : ∀ (evs : List (String × List TGroup))
    (idx : List (String × List (JVal × JVal))),
    (∀ p ∈ evs, ∀ g ∈ p.2, g.entries ≠ []) →
    buildIndex (evs.map eventToJVal) idx
      = some (evs.foldl (fun a p => strInsert a p.1 (tGroupIndex p.2)) idx) := by
  intro evs
  induction evs with
  | nil => intro idx _; rfl
  | cons p rest ih =>
      intro idx h
      obtain ⟨ev, gs⟩ := p
      simp only [List.map, eventToJVal, buildIndex, asGroupIter, List.foldl,
        Option.bind_eq_bind, Option.some_bind]
      rw [indexGroups_toJVal gs [] (h (ev, gs) (by simp))]
      simp only [Option.some_bind]
      exact ih _ (fun q hq => h q (by simp [hq]))

/-- With distinct fresh keys the insertion fold is an append of the
mapped list. -/
theorem foldl_strInsert_eq_append : ∀ (evs : List (String × List TGroup))
    (acc : List (String × List (JVal × JVal))),
    (evs.map Prod.fst).Nodup →
    (∀ p ∈ evs, ∀ q ∈ acc, q.1 ≠ p.1) →
    evs.foldl (fun a p => strInsert a p.1 (tGroupIndex p.2)) acc
      = acc ++ evs.map (fun p => (p.1, tGroupIndex p.2)) := by
  intro evs
  induction evs with
  | nil => intro acc _ _; simp
  | cons p rest ih =>
      intro acc hnd hfresh
      simp only [List.foldl]
      rw [strInsert_fresh acc p.1 _ (fun q hq => hfresh p (by simp) q hq)]
      rw [ih (acc ++ [(p.1, tGroupIndex p.2)]) ?_ ?_]
      · simp
      · exact (List.nodup_cons.mp (by simpa using hnd)).2
      · intro p' hp' q hq
        rcases List.mem_append.mp hq with hq | hq
        · exact hfresh p' (by simp [hp']) q hq
        · simp only [List.mem_singleton] at hq
          subst hq
          have hp1 : p.1 ∉ rest.map Prod.fst := (List.nodup_cons.mp (by simpa using hnd)).1
          intro hcontra
          exact hp1 (hcontra ▸ List.mem_map_of_mem Prod.fst hp')

/-- Lookup commutes with mapping the typed index over the values. -/
theorem strAssocLookup_map_tgi : ∀ (l : List (String × List TGroup)) (k : String),
    strAssocLookup (l.map fun p => (p.1, tGroupIndex p.2)) k
      = (strAssocLookup l k).map tGroupIndex := by
  intro l k
  induction l with
  | nil => rfl
  | cons p rest ih =>
      simp only [List.map, strAssocLookup]
      cases h : (p.1 == k) with
      | true => simp
      | false => simp [ih]

/-- Membership in a typed index is an existential over the groups with
a matching truthy matcher. -/
theorem keyMember_tGroupFold : ∀ (gs : List TGroup) (acc : List (JVal × JVal)) (m : String),
    keyMember (gs.foldl tGroupStep acc) (.jstr m)
      = (keyMember acc (.jstr m) || gs.any fun g =>
          match g.matcher with
          | some mq => !mq.data.isEmpty && (mq == m)
          | none => false) := by
  intro gs
  induction gs with
  | nil => intro acc m; simp
  | cons g rest ih =>
      intro acc m
      simp only [List.foldl, List.any_cons]
      rw [ih]
      obtain ⟨om, entries⟩ := g
      cases om with
      | none => simp [tGroupStep]
      | some mq =>
          by_cases hm : mq.data.isEmpty
          · simp [tGroupStep, hm]
          · rw [Bool.not_eq_true] at hm
            simp only [tGroupStep, hm, Bool.false_eq_true, if_false]
            rw [keyMember_insertKey_str]
            rw [beq_comm_str m mq]
            simp [hm, Bool.or_assoc, Bool.or_comm, Bool.or_left_comm]

/-- For a non-empty query matcher, the index-membership clause is plain
matcher equality. -/
theorem matcher_clause_eq (g : TGroup) (m : String) (hm : m.data.isEmpty = false) :
    (match g.matcher with
     | some mq => !mq.data.isEmpty && (mq == m)
     | none => false) = (g.matcher == some m) := by
  cases hgm : g.matcher with
  | none => rfl
  | some mq =>
      cases hq : (mq == m) with
      | true =>
          have : mq = m := eq_of_beq hq
          subst this
          simp [hm]
      | false => simp [hq]

/-- Scanning a serialized well-formed new group reduces to the matcher
membership test. -/
theorem scanGroup_toJVal (ev : String) (idxEv : List (JVal × JVal)) (g : TGroup)
    (hne : g.entries ≠ []) :
    scanGroup ev idxEv g.toJVal =
      (match g.matcher with
       | some m =>
           if m.data.isEmpty then some []
           else if keyMember idxEv (.jstr m) then
             (lookupKey idxEv (.jstr m)).map fun ec =>
               [⟨ev, .jstr m, ec, .jstr g.firstCmd⟩]
           else some []
       | none => some []) := by
  obtain ⟨om, entries⟩ := g
  cases om with
  | none => simp [TGroup.toJVal, scanGroup, jLookup_matcher_single, JVal.falsy]
  | some m =>
      cases entries with
      | nil => exact absurd rfl hne
      | cons e es =>
          by_cases hm : m.data.isEmpty
          · simp [TGroup.toJVal, scanGroup, jLookup_matcher_pair, JVal.falsy, hm]
          · by_cases hk : keyMember idxEv (.jstr m) = true
            · simp only [TGroup.toJVal, scanGroup, jLookup_matcher_pair, Option.getD_some,
                JVal.falsy, hm, Bool.false_eq_true, if_false, JVal.hashable, if_true, hk,
                firstCommandOf, jLookup_hooks_pair, List.map, TEntry.toJVal,
                jLookup_command_entry, TGroup.firstCmd]
              cases lookupKey idxEv (.jstr m) <;> rfl
            · simp [TGroup.toJVal, scanGroup, jLookup_matcher_pair, JVal.falsy, hm,
                JVal.hashable, hk]

/-- Scanning a serialized new group list produces conflicts whose
pair projection is the filterMap of the membership condition. -/
theorem scanGroups_toJVal (ev : String) (idxEv : List (JVal × JVal)) :
    ∀ (gs : List TGroup), (∀ g ∈ gs, g.entries ≠ []) →
    ∃ cs, scanGroups ev idxEv (gs.map TGroup.toJVal) = some cs ∧
      cs.map pairOf = gs.filterMap fun g =>
        match g.matcher with
        | some m =>
            if !m.data.isEmpty && keyMember idxEv (.jstr m) then some (ev, JVal.jstr m)
            else none
        | none => none := by
  intro gs
  induction gs with
  | nil => intro _; exact ⟨[], rfl, rfl⟩
  | cons g rest ih =>
      intro h
      obtain ⟨cs, hcs, hpairs⟩ := ih (fun g' h' => h g' (by simp [h']))
      rw [List.map_cons, List.filterMap_cons]
      have hsg := scanGroup_toJVal ev idxEv g (h g (by simp))
      cases hgm : g.matcher with
      | none =>
          refine ⟨cs, ?_, hpairs⟩
          simp only [scanGroups, hsg, hgm, Option.bind_eq_bind, Option.some_bind, hcs,
            List.nil_append]
      | some m =>
          by_cases hm : m.data.isEmpty
          · refine ⟨cs, ?_, ?_⟩
            · simp only [scanGroups, hsg, hgm, hm, if_true, Option.bind_eq_bind,
                Option.some_bind, hcs, List.nil_append]
            · simp [hm, hpairs]
          · rw [Bool.not_eq_true] at hm
            by_cases hk : keyMember idxEv (.jstr m) = true
            · obtain ⟨ec, hec⟩ := keyMember_lookupKey idxEv (.jstr m) hk
              refine ⟨⟨ev, .jstr m, ec, .jstr g.firstCmd⟩ :: cs, ?_, ?_⟩
              · simp only [scanGroups, hsg, hgm, hm, Bool.false_eq_true, if_false, hk, if_true,
                  hec, Option.bind_eq_bind, Option.some_bind, hcs]
                simp
              · simp [hm, hk, hpairs, pairOf]
            · rw [Bool.not_eq_true] at hk
              refine ⟨cs, ?_, ?_⟩
              · simp only [scanGroups, hsg, hgm, hm, Bool.false_eq_true, if_false, hk,
                  Option.bind_eq_bind, Option.some_bind, hcs, List.nil_append]
              · simp [hm, hk, hpairs]

/-- Scanning the serialized new document produces conflicts whose pair
projection is the flattened per-event filterMap. -/
theorem scanEvents_toJVal (idx : List (String × List (JVal × JVal))) :
    ∀ (nevs : List (String × List TGroup)),
    (∀ p ∈ nevs, ∀ g ∈ p.2, g.entries ≠ []) →
    ∃ cs, scanEvents idx (nevs.map eventToJVal) = some cs ∧
      cs.map pairOf = (nevs.map fun p =>
        match strAssocLookup idx p.1 with
        | some idxEv => p.2.filterMap fun g =>
            match g.matcher with
            | some m =>
                if !m.data.isEmpty && keyMember idxEv (.jstr m) then some (p.1, JVal.jstr m)
                else none
            | none => none
        | none => []).flatten := by
  intro nevs
  induction nevs with
  | nil => intro _; exact ⟨[], rfl, rfl⟩
  | cons p rest ih =>
      intro h
      obtain ⟨ev, gs⟩ := p
      obtain ⟨cs2, hcs2, hp2⟩ := ih (fun q hq => h q (by simp [hq]))
      rw [List.map_cons, List.map_cons, List.flatten_cons]
      cases hlook : strAssocLookup idx ev with
      | none =>
          refine ⟨cs2, ?_, by simpa using hp2⟩
          simp only [scanEvents, eventToJVal, hlook, hcs2]
      | some idxEv =>
          obtain ⟨cs1, hcs1, hp1⟩ := scanGroups_toJVal ev idxEv gs (h (ev, gs) (by simp))
          refine ⟨cs1 ++ cs2, ?_, ?_⟩
          · simp only [scanEvents, eventToJVal, hlook, asGroupIter, Option.bind_eq_bind,
              Option.some_bind, hcs1, hcs2]
          · simp [hp1, hp2]

/-- Congruence for the boolean any over a list. -/
theorem listAny_congr {α : Type} {f g : α → Bool} : ∀ (l : List α),
    (∀ a ∈ l, f a = g a) → l.any f = l.any g := by
  intro l h
  induction l with
  | nil => rfl
  | cons a t ih =>
      simp only [List.any_cons, h a (by simp), ih (fun b hb => h b (by simp [hb]))]

/-- C3: over all well-formed pairs of hook documents, detect_conflicts
emits a conflict for an (event, group) of the new document exactly when
the group has a non-empty matcher string-equal to the matcher of some
group under the same event in the existing document (the conflict list
projects to exactly the specification-side pair list, so groups with
empty or absent matchers never produce conflicts), and has_conflicts is
true exactly when the conflict list is non-empty; in the concrete
scenario with existing PostToolUse matcher "Edit" command "black ." and
new PostToolUse matcher "Edit" command "autopep8 .", exactly one
conflict is returned carrying those two commands. -/
theorem claim_C3 :
    (∀ e n : TDoc, e.wf → n.wf →
      ∃ res, detect_conflicts e.toJVal n.toJVal = some res
        ∧ res.has_conflicts = !res.conflicts.isEmpty
        ∧ res.conflicts.map pairOf
            = (spec_conflict_pairs e n).map fun q => (q.1, JVal.jstr q.2))
    ∧ detect_conflicts conflictExisting.toJVal conflictNew.toJVal
        = some { has_conflicts := true,
                 conflicts := [⟨"PostToolUse", .jstr "Edit", .jstr "black .", .jstr "autopep8 ."⟩] } := by
  refine ⟨?_, rfl⟩
  intro e n hew hnw
  obtain ⟨hnd, hent⟩ := hew
  obtain ⟨-, hent'⟩ := hnw
  have hidx := buildIndex_toJVal e.events [] hent
  rw [foldl_strInsert_eq_append e.events [] hnd
    (by intro p _ q hq; exact absurd hq (List.not_mem_nil q))] at hidx
  rw [List.nil_append] at hidx
  obtain ⟨cs, hcs, hpairs⟩ :=
    scanEvents_toJVal (e.events.map fun p => (p.1, tGroupIndex p.2)) n.events hent'
  refine ⟨⟨!cs.isEmpty, cs⟩, ?_, rfl, ?_⟩
  · simp only [detect_conflicts, TDoc.toJVal, pyGetD, jLookup_hooks_single, Option.getD_some,
      asObjItems, Option.bind_eq_bind, Option.some_bind]
    rw [hidx]
    simp only [Option.some_bind]
    rw [hcs]
    rfl
  · rw [hpairs]
    rw [spec_conflict_pairs, List.map_flatten, List.map_map]
    congr 1
    apply List.map_congr_left
    intro p _hp
    rw [strAssocLookup_map_tgi]
    cases hlook : strAssocLookup e.events p.1 with
    | none =>
        simp only [Option.map_none']
        rw [eq_comm, Function.comp_apply, List.map_eq_nil_iff, List.filterMap_eq_nil_iff]
        intro g _hg
        cases hgm : g.matcher with
        | none => rfl
        | some m =>
            simp only [TDoc.hasMatcher, hlook, Bool.and_false, Bool.false_eq_true, if_false]
    | some gs =>
        simp only [Option.map_some', Function.comp_apply, List.map_filterMap]
        apply List.filterMap_congr
        intro g _hg
        cases hgm : g.matcher with
        | none => rfl
        | some m =>
            dsimp only
            by_cases hm : m.data.isEmpty
            · simp [hm]
            · rw [Bool.not_eq_true] at hm
              have hkm : keyMember (tGroupIndex gs) (.jstr m)
                  = gs.any fun g' => g'.matcher == some m := by
                rw [tGroupIndex, keyMember_tGroupFold]
                simp only [keyMember, Bool.false_or]
                exact listAny_congr gs fun g' _ => matcher_clause_eq g' m hm
              have hhm : TDoc.hasMatcher e p.1 m = gs.any fun g' => g'.matcher == some m := by
                simp [TDoc.hasMatcher, hlook]
              rw [hkm]
              cases hany : gs.any fun g' => g'.matcher == some m with
              | true => simp [hm, hhm, hany]
              | false => simp [hm, hhm, hany]

/-- Witness for C3: the general theorem applied at the concrete
conflict scenario. -/
theorem claim_C3_witness :
    (detect_conflicts conflictExisting.toJVal conflictNew.toJVal).isSome = true := by
  obtain ⟨res, hres, -, -⟩ := claim_C3.1 conflictExisting conflictNew
    (by constructor <;> decide) (by constructor <;> decide)
  rw [hres]
  rfl

/-- C9: detect_conflicts is not total over structurally JSON-valid
documents: on a document whose group carries a non-empty matcher and a
"hooks" key bound to an empty list, the first-command lookup indexes
position 0 of the empty list and the call raises an unhandled
IndexError, modelled here by the detector returning none instead of a
result. -/
theorem claim_C9 :
    detect_conflicts emptyHooksDoc (JVal.jobj []) = none := rfl

/-- C6: for every hooks document that passes the top-level structure
checks, validate_hooks returns status "success" exactly when the
accumulated issue list is empty after the full traversal, regardless of
how many warnings were recorded; an event bound to an empty array
contributes no issue, while an event bound to a non-array value
contributes an issue, as shown both at the traversal step and on
concrete documents. -/
theorem claim_C6 :
    (∀ (config : JVal) (r : ValidateResult), validate_hooks config = .result r →
        (r.status = "success" ↔ r.issues = []))
    ∧ (∀ (ev : String) (st : VState), ∃ st', processEvent (ev, JVal.jarr []) st = some st'
        ∧ st'.issues = st.issues)
    ∧ (∀ (ev : String) (v : JVal) (st : VState), (∀ xs, v ≠ JVal.jarr xs) →
        ∃ st', processEvent (ev, v) st = some st'
          ∧ st'.issues = st.issues ++ [Issue.eventNotArray ev])
    ∧ validate_hooks emptyEventDoc = .result ⟨"success", [], [], [], 0⟩
    ∧ validate_hooks strEventDoc
        = .result ⟨"error", [Issue.eventNotArray "PostToolUse"], [], [], 0⟩ := by
  refine ⟨?_, ?_, ?_, rfl, rfl⟩
  · intro config r h
    simp only [validate_hooks] at h
    repeat' split at h
    any_goals exact VOut.noConfusion h
    rename_i st hst
    injection h with h'
    subst h'
    simp only [finishValidate]
    constructor
    · intro hs
      by_cases he : st.issues.isEmpty = true
      · exact List.isEmpty_iff.mp he
      · rw [if_neg he] at hs
        exact absurd hs (by decide)
    · intro hi
      simp [hi]
  · intro ev st
    refine ⟨_, rfl, ?_⟩
    split <;> rfl
  · intro ev v st hna
    cases v
    case jarr xs => exact absurd rfl (hna xs)
    all_goals refine ⟨_, rfl, ?_⟩
    all_goals split <;> rfl

/-- Witness for C6: the status-iff applied at a concrete document. -/
theorem claim_C6_witness :
    ((⟨"success", [], [], [], 0⟩ : ValidateResult).status = "success"
      ↔ (⟨"success", [], [], [], 0⟩ : ValidateResult).issues = []) :=
  claim_C6.1 emptyEventDoc ⟨"success", [], [], [], 0⟩ rfl

/-- C10: a hook entry that lacks a "type" key entirely makes
validate_hooks record the type warning (the absent value is compared
against "command"), and such an entry with a non-empty command is still
counted in total_hooks and included in the summary; the concrete
document with a type-less entry validates with status "success", one
warning, one summary entry and total 1. -/
theorem claim_C10 :
    (∀ (ev : String) (i : Nat) (matcher : JVal) (j : Nat) (fields : List (String × JVal))
        (st : VState) (c : String),
        jLookup fields "type" = none →
        jLookup fields "command" = some (JVal.jstr c) →
        c.data ≠ [] →
        ∃ st', processHook ev i matcher j (JVal.jobj fields) st = some st'
          ∧ st'.warnings = st.warnings ++ [Warning.badType ev i j none]
          ∧ st'.total = st.total + 1
          ∧ st'.summary.length = st.summary.length + 1
          ∧ st'.issues = st.issues)
    ∧ validate_hooks noTypeDoc = .result
        ⟨"success", [], [Warning.badType "PostToolUse" 0 0 none],
         [⟨"PostToolUse", JVal.jstr "Edit", JVal.jstr "black ."⟩], 1⟩ := by
  refine ⟨?_, rfl⟩
  intro ev i matcher j fields st c ht hcmd hc
  have hce : c.data.isEmpty = false := by
    cases hd : c.data with
    | nil => exact absurd hd hc
    | cons a t => rfl
  have hdisp : ∃ d, truncCommand (JVal.jstr c) = some d := by
    simp only [truncCommand, pyLen, Option.bind_eq_bind, Option.some_bind]
    by_cases h50 : 50 < c.data.length
    · exact ⟨_, by rw [if_pos h50]⟩
    · exact ⟨_, by rw [if_neg h50]⟩
  obtain ⟨d, hd⟩ := hdisp
  refine ⟨{ st with
      warnings := st.warnings ++ [Warning.badType ev i j none],
      total := st.total + 1,
      summary := st.summary ++
        [⟨ev, if matcher.falsy then .jstr "All tools" else matcher, d⟩] }, ?_, rfl, rfl, ?_, rfl⟩
  · simp only [processHook, ht, hcmd, isStrCommand, optFalsy, JVal.falsy, hce,
      Bool.false_eq_true, if_false, hd, Option.bind_eq_bind, Option.some_bind]
  · simp

/-- Witness for C10: the hook-entry lemma applied at a concrete
entry. -/
theorem claim_C10_witness :
    (processHook "PostToolUse" 0 (JVal.jstr "Edit") 0
        (JVal.jobj [("command", JVal.jstr "black .")]) ⟨[], [], 0, []⟩).isSome = true := by
  obtain ⟨st', hst, -, -, -, -⟩ := claim_C10.1 "PostToolUse" 0 (JVal.jstr "Edit") 0
    [("command", JVal.jstr "black .")] ⟨[], [], 0, []⟩ "black ." rfl rfl (by decide)
  rw [hst]
  rfl

/-- When every event value is an array, the CLI event scan returns True
or raises, never False. -/
theorem cliEventsScan_all_arrays : ∀ evs : List (String × JVal),
    (∀ p ∈ evs, ∃ xs, p.2 = JVal.jarr xs) →
    cliEventsScan evs = some true ∨ cliEventsScan evs = none := by
  intro evs
  induction evs with
  | nil => intro _; left; rfl
  | cons p rest ih =>
      intro h
      obtain ⟨xs, hxs⟩ := h p (by simp)
      obtain ⟨p1, p2⟩ := p
      dsimp only at hxs
      subst hxs
      simp only [cliEventsScan]
      cases hg : cliGroupListOk xs with
      | none => right; simp [hg]
      | some u =>
          rcases ih (fun q hq => h q (by simp [hq])) with h1 | h1
          · left; simp [hg, h1]
          · right; simp [hg, h1]

/-- C8 counterexample: a document whose only hook entry lacks its
command is not structurally valid (validate_hooks records an issue and
reports status "error"), yet the companion CLI validator
validate_hooks_file still returns True on it, so the CLI does not exit
with code 1 on every validation failure. -/
theorem claim_C8_counterexample :
    validate_hooks_file missingCommandDoc = some true
    ∧ validate_hooks missingCommandDoc
        = .result ⟨"error", [Issue.missingCommand "PostToolUse" 0 0], [], [], 0⟩ :=
  ⟨rfl, rfl⟩

/-- C8 amended: validate_hooks_file returns False exactly for top-level
structural failures — a non-object root, a missing "hooks" key, a
non-object "hooks" value, or an event value that is not an array —
while per-group and per-entry problems (such as a missing command or a
non-object group) are printed but never cause a False return: when
every event value is an array the traversal cannot return False. -/
theorem claim_C8_amended :
    (∀ config : JVal, (∀ fields, config ≠ JVal.jobj fields) →
        validate_hooks_file config = some false)
    ∧ (∀ fields, jLookup fields "hooks" = none →
        validate_hooks_file (JVal.jobj fields) = some false)
    ∧ (∀ fields v, jLookup fields "hooks" = some v → (∀ kvs, v ≠ JVal.jobj kvs) →
        validate_hooks_file (JVal.jobj fields) = some false)
    ∧ (∀ fields ev v evs, jLookup fields "hooks" = some (JVal.jobj ((ev, v) :: evs)) →
        (∀ xs, v ≠ JVal.jarr xs) →
        validate_hooks_file (JVal.jobj fields) = some false)
    ∧ (∀ fields evs, jLookup fields "hooks" = some (JVal.jobj evs) →
        (∀ p ∈ evs, ∃ xs, p.2 = JVal.jarr xs) →
        validate_hooks_file (JVal.jobj fields) ≠ some false) := by
  refine ⟨?_, ?_, ?_, ?_, ?_⟩
  · intro config hno
    cases config with
    | jobj fields => exact absurd rfl (hno fields)
    | jnull => rfl
    | jbool b => rfl
    | jnum n => rfl
    | jstr s => rfl
    | jarr xs => rfl
  · intro fields h
    simp [validate_hooks_file, h]
  · intro fields v h hno
    cases v with
    | jobj kvs => exact absurd rfl (hno kvs)
    | jnull => simp [validate_hooks_file, h]
    | jbool b => simp [validate_hooks_file, h]
    | jnum n => simp [validate_hooks_file, h]
    | jstr s => simp [validate_hooks_file, h]
    | jarr xs => simp [validate_hooks_file, h]
  · intro fields ev v evs h hno
    simp only [validate_hooks_file, h]
    cases v with
    | jarr xs => exact absurd rfl (hno xs)
    | jnull => rfl
    | jbool b => rfl
    | jnum n => rfl
    | jstr s => rfl
    | jobj kvs => rfl
  · intro fields evs h harr
    simp only [validate_hooks_file, h]
    rcases cliEventsScan_all_arrays evs harr with h1 | h1 <;> simp [h1]

/-- Witness for the amended C8 at concrete documents. -/
theorem claim_C8_amended_witness :
    validate_hooks_file (JVal.jarr []) = some false
    ∧ validate_hooks_file missingCommandDoc ≠ some false := by
  constructor
  · exact claim_C8_amended.1 (JVal.jarr []) (fun fields h => JVal.noConfusion h)
  · exact claim_C8_amended.2.2.2.2
      [("hooks", JVal.jobj [("PostToolUse", JVal.jarr
        [JVal.jobj [("hooks", JVal.jarr [JVal.jobj [("type", JVal.jstr "command")]])]])])]
      [("PostToolUse", JVal.jarr
        [JVal.jobj [("hooks", JVal.jarr [JVal.jobj [("type", JVal.jstr "command")]])]])]
      rfl
      (by intro p hp
          simp only [List.mem_singleton] at hp
          subst hp
          exact ⟨_, rfl⟩)


end Rule2Hook
